import Mathlib

/-!
# GaussianLib: `Gs::Epsilon` (include/Gauss/Epsilon.h)

A shallow embedding of the header `Epsilon.h`: the two tolerance macros, the generic
function template `Epsilon<T>()` with its `static_assert`, and the two explicit
specialisations for `float` and `double`.

Template instantiation happens at compile time, so `Epsilon` is modelled as a function from
the template argument to either a compile error or the value the instantiated function returns.
A template argument is a cv-unqualified type together with its `const` and `volatile` qualifiers.

The question whether a call touches the state of the program is settled on a second reading of
the header: the function bodies as statements, executed in a store of objects by a semantics in
which an expression can read and write objects (`Epsilon_call`).

Floating-point values are modelled exactly: a finite binary floating-point number is a sign, an
integer significand and a binary exponent, and a decimal literal denotes the representable number
nearest to its decimal value (ties to even), which is what the compilers do on IEEE 754 hardware;
`BinFloat.ofRat_isNearest` proves that the rounding function finds a nearest number.
-/

namespace Gs

/-! ## Types of the language that can be a template argument -/

/-- The cv-unqualified types: the standard integral types, the extended integer types an
implementation may add (such as `__int128`), given by signedness and width, the three
floating-point types, and `other` for every remaining type (pointers, references, classes,
enumerations, `void`, ...). -/
inductive Fundamental
  | bool | char | signedChar | unsignedChar | wchar_t | char8_t | char16_t | char32_t
  | short | unsignedShort | int | unsignedInt
  | long | unsignedLong | longLong | unsignedLongLong
  | extended (signed : Bool) (bits : Nat)
  | float | double | longDouble
  | other
  deriving DecidableEq, Repr

/-- The type a template argument `T` can name: a cv-unqualified type with its `const` and
`volatile` qualifiers. `const int` and `int` are different template arguments. -/
structure CppType where
  base : Fundamental
  isConst : Bool
  isVolatile : Bool
  deriving DecidableEq, Repr

namespace CppType

/-- The type `bool`, without qualifiers. -/
@[match_pattern] def bool : CppType := ⟨.bool, false, false⟩

/-- The type `int`, without qualifiers. -/
@[match_pattern] def int : CppType := ⟨.int, false, false⟩

/-- The type `float`, without qualifiers. -/
@[match_pattern] def float : CppType := ⟨.float, false, false⟩

/-- The type `double`, without qualifiers. -/
@[match_pattern] def double : CppType := ⟨.double, false, false⟩

/-- The type `long double`, without qualifiers. -/
@[match_pattern] def longDouble : CppType := ⟨.longDouble, false, false⟩

end CppType

/-- The trait `std::is_integral<T>::value`: `true` for the integral types, with or without
cv-qualifiers. -/
def is_integral (T : CppType) : Bool :=
  match T.base with
  | .float | .double | .longDouble | .other => false
  | _ => true

/-- The trait `std::is_floating_point<T>::value`: `true` for the floating-point types, with or
without cv-qualifiers. -/
def is_floating_point (T : CppType) : Bool :=
  match T.base with
  | .float | .double | .longDouble => true
  | _ => false

/-! ## Binary floating-point values -/

/-- A finite binary floating-point number `(-1)^neg * mant * 2^exp`. -/
structure BinFloat where
  neg : Bool
  mant : Nat
  exp : Int
  deriving DecidableEq, Repr

/-- A binary interchange format: `prec` significand bits, and the least and greatest exponent of
the unit in the last place of a finite number. -/
structure Format where
  prec : Nat
  emin : Int
  emax : Int
  deriving DecidableEq, Repr

/-- IEEE 754 binary32, the representation of `float`. -/
def binary32 : Format := ⟨24, -149, 104⟩

/-- IEEE 754 binary64, the representation of `double`. -/
def binary64 : Format := ⟨53, -1074, 971⟩

namespace BinFloat

/-- The exact rational value of a floating-point number. -/
def toRat (x : BinFloat) : ℚ :=
  (if x.neg then -1 else 1) * (x.mant : ℚ) * (2 : ℚ) ^ x.exp

/-- Whether `x` is a finite number of the format `f`. -/
def Representable (f : Format) (x : BinFloat) : Prop :=
  x.mant < 2 ^ f.prec ∧ f.emin ≤ x.exp ∧ x.exp ≤ f.emax

instance (f : Format) (x : BinFloat) : Decidable (Representable f x) := by
  unfold Representable; exact inferInstance

/-- Helper of `bitLen`: the recursion is on `fuel`, which bounds the number of bits. -/
def bitLenAux : Nat → Nat → Nat
  | 0, _ => 0
  | fuel + 1, n => if n = 0 then 0 else bitLenAux fuel (n / 2) + 1

/-- The number of binary digits of `n` (`0` for `n = 0`). -/
def bitLen (n : Nat) : Nat := bitLenAux n n

/-- The quotient `n / d` rounded to the nearest integer, ties to the even one. -/
def divNearestEven (n d : Nat) : Nat :=
  let m := n / d
  let r := n % d
  if 2 * r < d then m else if d < 2 * r then m + 1 else if m % 2 = 0 then m else m + 1

/-- The exponent `k` with `2^k ≤ p / q < 2^(k+1)`, for `p, q > 0`. -/
def floorLog2 (p q : Nat) : Int :=
  let k : Int := (bitLen p : Int) - (bitLen q : Int)
  if q * 2 ^ k.toNat ≤ p * 2 ^ (-k).toNat then k else k - 1

/-- The number of the format `f` nearest to `p / q` (ties to even), for a magnitude `p / q` with
`q > 0`. Overflow is not detected here: see `Representable`. -/
def roundMag (f : Format) (p q : Nat) : Nat × Int :=
  if p = 0 then (0, f.emin) else
    let e : Int := max (floorLog2 p q - ((f.prec : Int) - 1)) f.emin
    let m := divNearestEven (p * 2 ^ (-e).toNat) (q * 2 ^ e.toNat)
    if m = 2 ^ f.prec then (m / 2, e + 1) else (m, e)

/-- The value of a literal with decimal value `q` in the format `f`: round to nearest, ties to
even. -/
def ofRat (f : Format) (q : ℚ) : BinFloat :=
  let r := roundMag f q.num.natAbs q.den
  ⟨decide (q < 0), r.1, r.2⟩

/-- The function `std::abs` on floating-point values. -/
def abs (x : BinFloat) : BinFloat := { x with neg := false }

/-- The integer obtained by discarding the fractional part (truncation toward zero). -/
def trunc (x : BinFloat) : Int :=
  let m : Nat := x.mant * 2 ^ x.exp.toNat / 2 ^ (-x.exp).toNat
  if x.neg then -(m : Int) else (m : Int)

/-- The bit pattern of a number of the format `f` in normal form (sign bit, biased exponent,
fraction), read as an unsigned integer. -/
def bits (f : Format) (x : BinFloat) : Nat :=
  (if x.neg then (f.emax - f.emin + 3).toNat * 2 ^ (f.prec - 1) else 0)
    + (x.exp - f.emin).toNat * 2 ^ (f.prec - 1) + x.mant

end BinFloat

/-! ## Values and conversions -/

/-- A value of an arithmetic type: an integer (for `bool`, `0` is `false` and `1` is `true`) or a
floating-point number, tagged with its type. -/
inductive Value
  | int (T : CppType) (n : Int)
  | fp (T : CppType) (x : BinFloat)
  deriving DecidableEq, Repr

/-- The type of a value. -/
def Value.typeOf : Value → CppType
  | .int T _ => T
  | .fp T _ => T

/-- The exact rational number a value stands for. -/
def Value.toRat : Value → ℚ
  | .int _ n => (n : ℚ)
  | .fp _ x => x.toRat

/-- What can go wrong with an instantiation of the template or a call of it. -/
inductive Failure
  /-- A `static_assert` whose condition is `false`: the build fails with the message. -/
  | static_assert (message : String)
  /-- An expression that does not compile. -/
  | ill_formed
  /-- Undefined behaviour at run time. -/
  | undefined
  deriving DecidableEq, Repr

deriving instance DecidableEq for Except

/-- The range of values of an integral type other than `bool` (LP64 data model, `char` signed;
an extended type has the two's complement range of its width). Only the fact that `0` lies in
every range matters below. -/
def intRange : Fundamental → Int × Int
  | .char | .signedChar => (-2 ^ 7, 2 ^ 7 - 1)
  | .unsignedChar | .char8_t => (0, 2 ^ 8 - 1)
  | .short => (-2 ^ 15, 2 ^ 15 - 1)
  | .unsignedShort | .char16_t => (0, 2 ^ 16 - 1)
  | .int | .wchar_t => (-2 ^ 31, 2 ^ 31 - 1)
  | .unsignedInt | .char32_t => (0, 2 ^ 32 - 1)
  | .long | .longLong => (-2 ^ 63, 2 ^ 63 - 1)
  | .unsignedLong | .unsignedLongLong => (0, 2 ^ 64 - 1)
  | .extended true bits => (-2 ^ (bits - 1), 2 ^ (bits - 1) - 1)
  | .extended false bits => (0, 2 ^ bits - 1)
  | _ => (0, 1)

/-- The representation of a floating-point type (x86-64: `long double` is the 80-bit extended
format). -/
def floatFormat : Fundamental → Option Format
  | .float => some binary32
  | .double => some binary64
  | .longDouble => some ⟨64, -16445, 16320⟩
  | _ => none

/-- Whether a value is a value of the type it is tagged with: an integer of an integral type,
within the range of the type (`0` or `1` for `bool`), or a floating-point number of a
floating-point type, representable in the format of the type. -/
def Value.WellTyped : Value → Bool
  | .int T n =>
    is_integral T &&
      (if T.base = .bool then decide (n = 0 ∨ n = 1)
       else decide ((intRange T.base).1 ≤ n ∧ n ≤ (intRange T.base).2))
  | .fp T x =>
    match floatFormat T.base with
    | some f => decide (x.Representable f)
    | none => false

/-- The functional cast `T(x)` of a `float` value `x`: for `bool` the result is `true` exactly
when `x` is not zero; for another integral type the fractional part is discarded, and the
behaviour is undefined when the result is out of range; a floating-point type at least as wide as
`float` keeps the value. Qualifiers of `T` play no part. -/
def cast (T : CppType) (x : BinFloat) : Except Failure Value :=
  match T.base with
  | .other => .error .ill_formed
  | .float | .double | .longDouble => .ok (.fp T x)
  | .bool => .ok (.int T (if x.mant = 0 then 0 else 1))
  | _ =>
    let n := x.trunc
    if (intRange T.base).1 ≤ n ∧ n ≤ (intRange T.base).2 then .ok (.int T n)
    else .error .undefined

/-! ## Epsilon.h -/

/-- The macro `__GS_EPSILON_F32__`, the literal `1.0e-6f` of type `float`. -/
def __GS_EPSILON_F32__ : BinFloat := BinFloat.ofRat binary32 1.0e-6

/-- The macro `__GS_EPSILON_F64__`, the literal `1.0e-8` of type `double`. -/
def __GS_EPSILON_F64__ : BinFloat := BinFloat.ofRat binary64 1.0e-8

/-- The primary template `template <typename T> inline T Epsilon()`: the `static_assert` on
`std::is_integral<T>::value`, then `return T(__GS_EPSILON_F32__)`. -/
def Epsilon_generic (T : CppType) : Except Failure Value :=
  if is_integral T then cast T __GS_EPSILON_F32__
  else .error (.static_assert "'Gs::Epsilon' function only allows floating-point types")

/-- The explicit specialisation `template <> inline float Epsilon()`. -/
def Epsilon_float : BinFloat := __GS_EPSILON_F32__

/-- The explicit specialisation `template <> inline double Epsilon()`. -/
def Epsilon_double : BinFloat := __GS_EPSILON_F64__

/-- The call `Epsilon<T>()`: an explicit specialisation is used for the template argument it
names (`float` and `double` without qualifiers), the primary template for every other one. -/
def Epsilon (T : CppType) : Except Failure Value :=
  if T = .float then .ok (.fp .float Epsilon_float)
  else if T = .double then .ok (.fp .double Epsilon_double)
  else Epsilon_generic T

/-- Whether the instantiation `Epsilon<T>` compiles. -/
def accepted (T : CppType) : Bool :=
  match Epsilon T with
  | .error (.static_assert _) => false
  | .error .ill_formed => false
  | _ => true

/-! ## The function bodies as programs over a store -/

/-- The state of the program that an expression of a function body could read or write: the
objects of type `float`, by name. -/
abbrev Store := String → Option BinFloat

/-- Expressions of type `float`: a literal, the value of an object, an assignment to an
object. -/
inductive FloatExpr
  | literal (x : BinFloat)
  | object (name : String)
  | assign (name : String) (e : FloatExpr)
  deriving Repr

/-- Expressions: an expression of type `float`, a literal of type `double`, and the functional
cast `T(e)` of an expression of type `float`. -/
inductive Expr
  | float (e : FloatExpr)
  | double_literal (x : BinFloat)
  | functional_cast (T : CppType) (e : FloatExpr)
  deriving Repr

/-- Statements of a function body: `static_assert(condition, message);` and `return e;`. -/
inductive Stmt
  | static_assert (condition : Bool) (message : String)
  | ret (e : Expr)
  deriving Repr

/-- Evaluation of an expression of type `float` in a store: reading an object looks it up (a
name that is not declared does not compile), an assignment changes the store. -/
def FloatExpr.eval : FloatExpr → Store → Except Failure (BinFloat × Store)
  | .literal x, s => .ok (x, s)
  | .object name, s =>
    match s name with
    | some x => .ok (x, s)
    | none => .error .ill_formed
  | .assign name e, s =>
    match e.eval s with
    | .ok (x, s') => .ok (x, Function.update s' name (some x))
    | .error err => .error err

/-- Evaluation of an expression in a store. -/
def Expr.eval : Expr → Store → Except Failure (Value × Store)
  | .float e, s =>
    match e.eval s with
    | .ok (x, s') => .ok (.fp .float x, s')
    | .error err => .error err
  | .double_literal x, s => .ok (.fp .double x, s)
  | .functional_cast T e, s =>
    match e.eval s with
    | .ok (x, s') =>
      match cast T x with
      | .ok v => .ok (v, s')
      | .error err => .error err
    | .error err => .error err

/-- Execution of a function body in a store: the value returned and the store left behind. A
failed `static_assert` stops the build; flowing off the end of the body is undefined. -/
def exec : List Stmt → Store → Except Failure (Value × Store)
  | [], _ => .error .undefined
  | .static_assert condition message :: rest, s =>
    if condition then exec rest s else .error (.static_assert message)
  | .ret e :: _, s => e.eval s

/-- The body of the primary template, with the macro expanded:
`static_assert(std::is_integral<T>::value, "..."); return T(1.0e-6f);`. -/
def Epsilon_generic_body (T : CppType) : List Stmt :=
  [.static_assert (is_integral T) "'Gs::Epsilon' function only allows floating-point types",
   .ret (.functional_cast T (.literal __GS_EPSILON_F32__))]

/-- The body of the specialisation for `float`, with the macro expanded: `return 1.0e-6f;`. -/
def Epsilon_float_body : List Stmt :=
  [.ret (.float (.literal __GS_EPSILON_F32__))]

/-- The body of the specialisation for `double`, with the macro expanded: `return 1.0e-8;`. -/
def Epsilon_double_body : List Stmt :=
  [.ret (.double_literal __GS_EPSILON_F64__)]

/-- The body that a call `Epsilon<T>()` runs. -/
def Epsilon_body (T : CppType) : List Stmt :=
  if T = .float then Epsilon_float_body
  else if T = .double then Epsilon_double_body
  else Epsilon_generic_body T

/-- A call `Epsilon<T>()` made in the store `s`: the body is run in `s`. -/
def Epsilon_call (T : CppType) (s : Store) : Except Failure (Value × Store) :=
  exec (Epsilon_body T) s

/-- The example of the documentation comment:
`bool IsNearlyZero(float x) { return std::abs(x) <= Gs::Epsilon<float>(); }`. -/
def IsNearlyZero (x : BinFloat) : Bool :=
  decide (x.abs.toRat ≤ Epsilon_float.toRat)

/-- The number `x` of the format `f` is at least as close to `q` as every number of `f`. -/
def BinFloat.IsNearest (f : Format) (q : ℚ) (x : BinFloat) : Prop :=
  x.Representable f ∧ ∀ y : BinFloat, y.Representable f → |x.toRat - q| ≤ |y.toRat - q|

/-! ## Correctness of the literal semantics -/

namespace BinFloat

/-- Zero has no binary digit, whatever the fuel. -/
theorem bitLenAux_zero (fuel : Nat) : bitLenAux fuel 0 = 0 := by
  cases fuel <;> simp [bitLenAux]

/-- With fuel `n` or more, `bitLenAux` returns the number `b` of binary digits of `n > 0`:
`2^(b-1) ≤ n < 2^b`. The fuel never runs out. -/
theorem bitLenAux_spec (fuel : Nat) : ∀ n : Nat, n ≤ fuel → 0 < n →
    2 ^ (bitLenAux fuel n - 1) ≤ n ∧ n < 2 ^ bitLenAux fuel n := by
  induction fuel with
  | zero => intro n h1 h2; omega
  | succ fuel ih =>
    intro n h1 h2
    have hn : n ≠ 0 := by omega
    simp only [bitLenAux, hn, if_false, Nat.add_sub_cancel]
    by_cases h : n / 2 = 0
    · have : n = 1 := by omega
      subst this
      simp [bitLenAux_zero]
    · have h3 := ih (n / 2) (by omega) (by omega)
      obtain ⟨h4, h5⟩ := h3
      have hb : 1 ≤ bitLenAux fuel (n / 2) := by
        by_contra hc
        have : bitLenAux fuel (n / 2) = 0 := by omega
        rw [this] at h5
        simp at h5
        exact h h5
      constructor
      · have : 2 ^ bitLenAux fuel (n / 2) = 2 ^ (bitLenAux fuel (n / 2) - 1) * 2 := by
          rw [← pow_succ]; congr 1; omega
        rw [this]
        omega
      · rw [pow_succ]
        omega

/-- The number `b = bitLen n` of binary digits of `n > 0` satisfies `2^(b-1) ≤ n < 2^b`. -/
theorem bitLen_spec (n : Nat) (h : 0 < n) : 2 ^ (bitLen n - 1) ≤ n ∧ n < 2 ^ bitLen n :=
  bitLenAux_spec n n le_rfl h

/-- A power of two with an integer exponent, split into its numerator and its denominator. -/
theorem two_zpow_split (k : ℤ) : (2 : ℚ) ^ k * 2 ^ (-k).toNat = 2 ^ k.toNat := by
  rcases le_total 0 k with h | h
  · have h1 : (-k).toNat = 0 := by omega
    obtain ⟨n, rfl⟩ := Int.eq_ofNat_of_zero_le h
    simp [h1]
  · have h1 : k.toNat = 0 := by omega
    obtain ⟨n, hn⟩ := Int.eq_ofNat_of_zero_le (by omega : 0 ≤ -k)
    have : k = -(n : ℤ) := by omega
    subst this
    simp [h1]

/-- The rounded quotient is within one half of the exact quotient. -/
theorem divNearestEven_spec (n d : Nat) (hd : 0 < d) :
    |((divNearestEven n d : ℕ) : ℚ) - (n : ℚ) / d| ≤ 1 / 2 := by
  have hd' : (0 : ℚ) < d := by exact_mod_cast hd
  have hn : (n : ℚ) = d * ((n / d : ℕ) : ℚ) + ((n % d : ℕ) : ℚ) := by
    exact_mod_cast (Nat.div_add_mod n d).symm
  have hr : ((n % d : ℕ) : ℚ) < d := by exact_mod_cast Nat.mod_lt n hd
  have hr0 : (0 : ℚ) ≤ ((n % d : ℕ) : ℚ) := by positivity
  have e0 : (n : ℚ) / d = ((n / d : ℕ) : ℚ) + ((n % d : ℕ) : ℚ) / d := by
    rw [div_eq_iff hd'.ne', add_mul, div_mul_cancel₀ _ hd'.ne']
    linarith
  unfold divNearestEven
  simp only
  split_ifs with h1 h2 h3
  · have h4 : (2 : ℚ) * ((n % d : ℕ) : ℚ) < d := by exact_mod_cast h1
    have : ((n % d : ℕ) : ℚ) / d ≤ 1 / 2 := by
      rw [div_le_iff₀ hd']; linarith
    have : 0 ≤ ((n % d : ℕ) : ℚ) / d := by positivity
    rw [e0, abs_le]
    constructor <;> linarith
  · have h4 : (d : ℚ) < 2 * ((n % d : ℕ) : ℚ) := by exact_mod_cast h2
    have h5 : 1 / 2 ≤ ((n % d : ℕ) : ℚ) / d := by
      rw [le_div_iff₀ hd']; linarith
    have h6 : ((n % d : ℕ) : ℚ) / d ≤ 1 := by
      rw [div_le_iff₀ hd']; linarith
    rw [e0, abs_le]
    push_cast
    constructor <;> linarith
  · have h4 : 2 * (n % d) = d := by omega
    have h4' : (2 : ℚ) * ((n % d : ℕ) : ℚ) = d := by exact_mod_cast h4
    have h5 : ((n % d : ℕ) : ℚ) / d = 1 / 2 := by
      rw [div_eq_iff hd'.ne']; linarith
    rw [e0, h5, abs_le]
    constructor <;> linarith
  · have h4 : 2 * (n % d) = d := by omega
    have h4' : (2 : ℚ) * ((n % d : ℕ) : ℚ) = d := by exact_mod_cast h4
    have h5 : ((n % d : ℕ) : ℚ) / d = 1 / 2 := by
      rw [div_eq_iff hd'.ne']; linarith
    rw [e0, h5, abs_le]
    push_cast
    constructor <;> linarith

/-- The exponent `k = floorLog2 p q` satisfies `2^k ≤ p / q < 2^(k+1)`. -/
theorem floorLog2_spec (p q : Nat) (hp : 0 < p) (hq : 0 < q) :
    (2 : ℚ) ^ floorLog2 p q ≤ (p : ℚ) / q ∧ (p : ℚ) / q < 2 ^ (floorLog2 p q + 1) := by
  obtain ⟨hp1, hp2⟩ := bitLen_spec p hp
  obtain ⟨hq1, hq2⟩ := bitLen_spec q hq
  have hbp : 1 ≤ bitLen p := by
    by_contra hc
    have : bitLen p = 0 := by omega
    rw [this] at hp2; omega
  have hbq : 1 ≤ bitLen q := by
    by_contra hc
    have : bitLen q = 0 := by omega
    rw [this] at hq2; omega
  have hp1' : (2 : ℚ) ^ (bitLen p - 1) ≤ p := by exact_mod_cast hp1
  have hp2' : (p : ℚ) < 2 ^ bitLen p := by exact_mod_cast hp2
  have hq1' : (2 : ℚ) ^ (bitLen q - 1) ≤ q := by exact_mod_cast hq1
  have hq2' : (q : ℚ) < 2 ^ bitLen q := by exact_mod_cast hq2
  have hq' : (0 : ℚ) < q := by exact_mod_cast hq
  have ep : (2 : ℚ) ^ bitLen p = 2 ^ (bitLen p - 1) * 2 := by
    rw [← pow_succ]; congr 1; omega
  have eq : (2 : ℚ) ^ bitLen q = 2 ^ (bitLen q - 1) * 2 := by
    rw [← pow_succ]; congr 1; omega
  have hK0 : (0 : ℚ) < 2 ^ ((bitLen p : ℤ) - (bitLen q : ℤ)) := zpow_pos (by norm_num) _
  have hK : (2 : ℚ) ^ ((bitLen p : ℤ) - (bitLen q : ℤ)) * 2 ^ bitLen q = 2 ^ bitLen p := by
    rw [zpow_sub₀ (by norm_num), zpow_natCast, zpow_natCast]
    field_simp
  have hup : (p : ℚ) / q < 2 ^ ((bitLen p : ℤ) - (bitLen q : ℤ)) * 2 := by
    rw [div_lt_iff₀ hq']
    have : (2 : ℚ) ^ ((bitLen p : ℤ) - (bitLen q : ℤ)) * 2 * 2 ^ (bitLen q - 1)
        = 2 ^ bitLen p := by rw [← hK, eq]; ring
    nlinarith
  have hlo : (2 : ℚ) ^ ((bitLen p : ℤ) - (bitLen q : ℤ)) / 2 ≤ (p : ℚ) / q := by
    rw [le_div_iff₀ hq']
    have : (2 : ℚ) ^ ((bitLen p : ℤ) - (bitLen q : ℤ)) / 2 * 2 ^ bitLen q
        = 2 ^ (bitLen p - 1) := by
      rw [div_mul_eq_mul_div, hK, ep]; ring
    nlinarith
  unfold floorLog2
  simp only
  split_ifs with h
  · refine ⟨?_, ?_⟩
    · rw [le_div_iff₀ hq']
      have h' : (q : ℚ) * 2 ^ ((bitLen p : ℤ) - (bitLen q : ℤ)).toNat
          ≤ p * 2 ^ (-((bitLen p : ℤ) - (bitLen q : ℤ))).toNat := by exact_mod_cast h
      rw [← two_zpow_split ((bitLen p : ℤ) - (bitLen q : ℤ))] at h'
      have h0 : (0 : ℚ) < 2 ^ (-((bitLen p : ℤ) - (bitLen q : ℤ))).toNat := by positivity
      rw [← mul_assoc] at h'
      have := le_of_mul_le_mul_right h' h0
      linarith
    · rw [zpow_add_one₀ (by norm_num)]; exact hup
  · refine ⟨?_, ?_⟩
    · rw [zpow_sub_one₀ (by norm_num)]
      exact hlo
    · rw [sub_add_cancel, div_lt_iff₀ hq']
      push_neg at h
      have h' : (p : ℚ) * 2 ^ (-((bitLen p : ℤ) - (bitLen q : ℤ))).toNat
          < q * 2 ^ ((bitLen p : ℤ) - (bitLen q : ℤ)).toNat := by exact_mod_cast h
      rw [← two_zpow_split ((bitLen p : ℤ) - (bitLen q : ℤ)), ← mul_assoc] at h'
      have h0 : (0 : ℚ) < 2 ^ (-((bitLen p : ℤ) - (bitLen q : ℤ))).toNat := by positivity
      have := lt_of_mul_lt_mul_right h' h0.le
      linarith

/-- An integer within one half of `t` is at least as close to `t` as every integer. -/
theorem int_nearest (m k : ℤ) (t : ℚ) (h : |(m : ℚ) - t| ≤ 1 / 2) :
    |(m : ℚ) - t| ≤ |(k : ℚ) - t| := by
  by_cases hk : k = m
  · rw [hk]
  · have h1 : (1 : ℚ) ≤ |(k : ℚ) - m| := by
      have : (1 : ℤ) ≤ |k - m| := Int.one_le_abs (sub_ne_zero.mpr hk)
      exact_mod_cast this
    have h2 : |(k : ℚ) - m| ≤ |(k : ℚ) - t| + |(m : ℚ) - t| := by
      have := abs_sub_le (k : ℚ) t m
      rwa [abs_sub_comm t (m : ℚ)] at this
    linarith

/-- Among the multiples of `2^e`, one within half a unit of `q` is nearest to `q`. -/
theorem grid_nearest (e m k : ℤ) (q : ℚ) (h : |(m : ℚ) - q / 2 ^ e| ≤ 1 / 2) :
    |(m : ℚ) * 2 ^ e - q| ≤ |(k : ℚ) * 2 ^ e - q| := by
  have hu : (0 : ℚ) < 2 ^ e := zpow_pos (by norm_num) _
  have e1 : (m : ℚ) * 2 ^ e - q = ((m : ℚ) - q / 2 ^ e) * 2 ^ e := by field_simp
  have e2 : (k : ℚ) * 2 ^ e - q = ((k : ℚ) - q / 2 ^ e) * 2 ^ e := by field_simp
  rw [e1, e2, abs_mul, abs_mul, abs_of_pos hu]
  exact mul_le_mul_of_nonneg_right (int_nearest m k _ h) hu.le

/-- A number whose exponent is at least `e` is a multiple of `2^e`. -/
theorem toRat_on_grid (y : BinFloat) (e : ℤ) (h : e ≤ y.exp) :
    ∃ k : ℤ, y.toRat = (k : ℚ) * 2 ^ e := by
  obtain ⟨d, hd⟩ := Int.le.dest h
  refine ⟨(if y.neg then -1 else 1) * ((y.mant * 2 ^ d : ℕ) : ℤ), ?_⟩
  rw [toRat, ← hd, zpow_add₀ (by norm_num), zpow_natCast]
  split_ifs <;> push_cast <;> ring

/-- A number with less than `prec` significand bits that exceeds `2^(prec-1) * 2^e` has an
exponent of at least `e`. -/
theorem exp_ge_of_lt_toRat (prec : ℕ) (hp : 1 ≤ prec) (e : ℤ) (y : BinFloat)
    (hM : y.mant < 2 ^ prec) (hy : (2 : ℚ) ^ (prec - 1) * 2 ^ e < y.toRat) : e ≤ y.exp := by
  have hu : (0 : ℚ) < 2 ^ e := zpow_pos (by norm_num) _
  have hv : (0 : ℚ) < 2 ^ y.exp := zpow_pos (by norm_num) _
  have hb : (0 : ℚ) < 2 ^ (prec - 1) * 2 ^ e := by positivity
  have hyneg : y.neg = false := by
    by_contra hn
    have hn' : y.neg = true := by simpa using hn
    have : y.toRat ≤ 0 := by
      simp only [toRat, hn', if_true]
      have : (0 : ℚ) ≤ (y.mant : ℚ) * 2 ^ y.exp := by positivity
      linarith
    linarith
  have hyr : y.toRat = (y.mant : ℚ) * 2 ^ y.exp := by simp [toRat, hyneg]
  have hM' : (y.mant : ℚ) < 2 ^ prec := by exact_mod_cast hM
  have hlt : (2 : ℚ) ^ e < 2 ^ (y.exp + 1) := by
    have h1 : (2 : ℚ) ^ (prec - 1) * 2 ^ e < 2 ^ prec * 2 ^ y.exp := by
      calc (2 : ℚ) ^ (prec - 1) * 2 ^ e < (y.mant : ℚ) * 2 ^ y.exp := by rw [← hyr]; exact hy
        _ ≤ 2 ^ prec * 2 ^ y.exp := mul_le_mul_of_nonneg_right hM'.le hv.le
    have h2 : (2 : ℚ) ^ prec = 2 ^ (prec - 1) * 2 := by
      rw [← pow_succ]; congr 1; omega
    rw [h2, mul_assoc] at h1
    have h4 : (0 : ℚ) < 2 ^ (prec - 1) := by positivity
    have := lt_of_mul_lt_mul_left h1 h4.le
    rw [zpow_add_one₀ (by norm_num)]; linarith
  have := (zpow_lt_zpow_iff_right₀ (by norm_num : (1 : ℚ) < 2)).mp hlt
  omega

/-- Rounding in a binade: if `q` is not below `2^(prec-1) * 2^e` and `m` is within one half of
`q / 2^e`, then `m * 2^e` is at least as close to `q` as every number with `prec` significand
bits. -/
theorem nearest_normal (prec : ℕ) (hp : 1 ≤ prec) (e : ℤ) (m : ℤ) (q : ℚ)
    (hq : (2 : ℚ) ^ (prec - 1) * 2 ^ e ≤ q) (h : |(m : ℚ) - q / 2 ^ e| ≤ 1 / 2)
    (y : BinFloat) (hM : y.mant < 2 ^ prec) :
    |(m : ℚ) * 2 ^ e - q| ≤ |y.toRat - q| := by
  by_cases hyb : y.toRat ≤ 2 ^ (prec - 1) * 2 ^ e
  · have h1 := grid_nearest e m (2 ^ (prec - 1)) q h
    push_cast at h1
    calc |(m : ℚ) * 2 ^ e - q| ≤ |2 ^ (prec - 1) * 2 ^ e - q| := h1
      _ = q - 2 ^ (prec - 1) * 2 ^ e := by
          rw [abs_sub_comm, abs_of_nonneg (by linarith)]
      _ ≤ q - y.toRat := by linarith
      _ ≤ |y.toRat - q| := by rw [abs_sub_comm]; exact le_abs_self _
  · push_neg at hyb
    obtain ⟨k, hk⟩ := toRat_on_grid y e (exp_ge_of_lt_toRat prec hp e y hM hyb)
    rw [hk]
    exact grid_nearest e m k q h

/-- The final step of `roundMag`: a significand that was rounded up to `2^prec` is renormalised,
without change of value. -/
theorem carry_spec (prec : ℕ) (hp : 1 ≤ prec) (m : ℕ) (e : ℤ) (hm : m ≤ 2 ^ prec) :
    (if m = 2 ^ prec then (m / 2, e + 1) else (m, e)).1 < 2 ^ prec ∧
    e ≤ (if m = 2 ^ prec then (m / 2, e + 1) else (m, e)).2 ∧
    (((if m = 2 ^ prec then (m / 2, e + 1) else (m, e)).1 : ℕ) : ℚ)
      * 2 ^ (if m = 2 ^ prec then (m / 2, e + 1) else (m, e)).2 = (m : ℚ) * 2 ^ e := by
  have h2 : 2 ^ prec = 2 ^ (prec - 1) * 2 := by
    rw [← pow_succ]; congr 1; omega
  split_ifs with h
  · refine ⟨?_, by simp, ?_⟩
    · subst h
      exact Nat.div_lt_self (by positivity) (by norm_num)
    · have : m / 2 = 2 ^ (prec - 1) := by rw [h, h2]; simp
      show ((m / 2 : ℕ) : ℚ) * 2 ^ (e + 1) = (m : ℚ) * 2 ^ e
      rw [this, zpow_add_one₀ (by norm_num), h, h2]
      push_cast
      ring
  · exact ⟨lt_of_le_of_ne hm h, le_rfl, rfl⟩

/-- The result `(m, e)` of `roundMag` has less than `prec` significand bits and an exponent of
at least `emin`, and `m * 2^e` is at least as close to `p / q` as every number with these two
properties. -/
theorem roundMag_spec (f : Format) (hp : 1 ≤ f.prec) (p q : ℕ) (hq : 0 < q) :
    (roundMag f p q).1 < 2 ^ f.prec ∧ f.emin ≤ (roundMag f p q).2 ∧
    ∀ y : BinFloat, y.mant < 2 ^ f.prec → f.emin ≤ y.exp →
      |((roundMag f p q).1 : ℚ) * 2 ^ (roundMag f p q).2 - (p : ℚ) / q|
        ≤ |y.toRat - (p : ℚ) / q| := by
  by_cases hp0 : p = 0
  · simp [roundMag, hp0]
  · have hp' : 0 < p := Nat.pos_of_ne_zero hp0
    have hq' : (0 : ℚ) < q := by exact_mod_cast hq
    obtain ⟨hk1, hk2⟩ := floorLog2_spec p q hp' hq
    have hmain : ∀ (e : ℤ) (m : ℕ), e = max (floorLog2 p q - ((f.prec : ℤ) - 1)) f.emin →
        m = divNearestEven (p * 2 ^ (-e).toNat) (q * 2 ^ e.toNat) →
        (if m = 2 ^ f.prec then (m / 2, e + 1) else (m, e)).1 < 2 ^ f.prec ∧
        f.emin ≤ (if m = 2 ^ f.prec then (m / 2, e + 1) else (m, e)).2 ∧
        ∀ y : BinFloat, y.mant < 2 ^ f.prec → f.emin ≤ y.exp →
          |(((if m = 2 ^ f.prec then (m / 2, e + 1) else (m, e)).1 : ℕ) : ℚ)
              * 2 ^ (if m = 2 ^ f.prec then (m / 2, e + 1) else (m, e)).2 - (p : ℚ) / q|
            ≤ |y.toRat - (p : ℚ) / q| := by
      intro e m he hm
      have hu : (0 : ℚ) < 2 ^ e := zpow_pos (by norm_num) _
      have hemin : f.emin ≤ e := by rw [he]; exact le_max_right _ _
      have hek : floorLog2 p q - ((f.prec : ℤ) - 1) ≤ e := by rw [he]; exact le_max_left _ _
      have hd : 0 < q * 2 ^ e.toNat := by positivity
      have hclose : |((m : ℤ) : ℚ) - (p : ℚ) / q / 2 ^ e| ≤ 1 / 2 := by
        have h1 := divNearestEven_spec (p * 2 ^ (-e).toNat) (q * 2 ^ e.toNat) hd
        have h2 : (((p * 2 ^ (-e).toNat : ℕ) : ℚ)) / ((q * 2 ^ e.toNat : ℕ) : ℚ)
            = (p : ℚ) / q / 2 ^ e := by
          push_cast
          rw [← two_zpow_split e]
          have h0 : (0 : ℚ) < 2 ^ (-e).toNat := by positivity
          field_simp
          ring
        rw [h2, ← hm] at h1
        exact_mod_cast h1
      have hlt : (p : ℚ) / q / 2 ^ e < 2 ^ f.prec := by
        rw [div_lt_iff₀ hu]
        have h1 : (2 : ℚ) ^ (floorLog2 p q + 1) ≤ 2 ^ f.prec * 2 ^ e := by
          rw [← zpow_natCast, ← zpow_add₀ (by norm_num)]
          exact zpow_le_zpow_right₀ (by norm_num) (by omega)
        linarith
      have hmle : m ≤ 2 ^ f.prec := by
        have h1 : ((m : ℤ) : ℚ) < 2 ^ f.prec + 1 := by
          have := (abs_le.mp hclose).2
          linarith
        have h2 : (m : ℚ) < ((2 ^ f.prec + 1 : ℕ) : ℚ) := by
          push_cast; exact_mod_cast h1
        have h3 : m < 2 ^ f.prec + 1 := by exact_mod_cast h2
        omega
      obtain ⟨c1, c2, c3⟩ := carry_spec f.prec hp m e hmle
      refine ⟨c1, le_trans hemin c2, fun y hyM hyE => ?_⟩
      rw [c3]
      rcases le_total f.emin (floorLog2 p q - ((f.prec : ℤ) - 1)) with hA | hB
      · have hee : e = floorLog2 p q - ((f.prec : ℤ) - 1) := by
          rw [he]; exact max_eq_left hA
        have hqb : (2 : ℚ) ^ (f.prec - 1) * 2 ^ e ≤ (p : ℚ) / q := by
          have h1 : (2 : ℚ) ^ (f.prec - 1) * 2 ^ e = 2 ^ floorLog2 p q := by
            rw [← zpow_natCast, ← zpow_add₀ (by norm_num)]
            congr 1
            rw [hee]
            have : ((f.prec - 1 : ℕ) : ℤ) = (f.prec : ℤ) - 1 := by omega
            rw [this]; ring
          rw [h1]; exact hk1
        have := nearest_normal f.prec hp e (m : ℤ) ((p : ℚ) / q) hqb hclose y hyM
        exact_mod_cast this
      · have hee : e = f.emin := by rw [he]; exact max_eq_right hB
        obtain ⟨k, hk⟩ := toRat_on_grid y e (by rw [hee]; exact hyE)
        rw [hk]
        have := grid_nearest e (m : ℤ) k ((p : ℚ) / q) hclose
        exact_mod_cast this
    have := hmain _ _ rfl rfl
    unfold roundMag
    rw [if_neg hp0]
    exact this

/-- The literal semantics is correct: when the result does not overflow, `ofRat f q` is a number
of the format `f` at least as close to `q` as every number of `f`. -/
theorem ofRat_isNearest (f : Format) (hp : 1 ≤ f.prec) (q : ℚ)
    (hmax : (ofRat f q).exp ≤ f.emax) : IsNearest f q (ofRat f q) := by
  obtain ⟨s1, s2, s3⟩ := roundMag_spec f hp q.num.natAbs q.den q.den_pos
  have habs : ((q.num.natAbs : ℕ) : ℚ) / (q.den : ℚ) = |q| := by
    have h1 : ((q.num.natAbs : ℕ) : ℚ) = |(q.num : ℚ)| := by
      rw [Nat.cast_natAbs, Int.cast_abs]
    have h2 : (0 : ℚ) < q.den := by exact_mod_cast q.den_pos
    rw [h1]
    conv_rhs => rw [← Rat.num_div_den q]
    rw [abs_div, abs_of_pos h2]
  rw [habs] at s3
  refine ⟨⟨s1, s2, hmax⟩, fun y hy => ?_⟩
  by_cases hq : q < 0
  · have hx : (ofRat f q).toRat
        = -(((roundMag f q.num.natAbs q.den).1 : ℚ) * 2 ^ (roundMag f q.num.natAbs q.den).2) := by
      simp [ofRat, toRat, hq]
    have h1 := s3 ⟨!y.neg, y.mant, y.exp⟩ hy.1 hy.2.1
    have h2 : (BinFloat.mk (!y.neg) y.mant y.exp).toRat = -y.toRat := by
      simp only [toRat]
      cases y.neg <;> simp
    rw [h2, abs_of_neg hq] at h1
    rw [hx]
    have e1 : -(((roundMag f q.num.natAbs q.den).1 : ℚ) * 2 ^ (roundMag f q.num.natAbs q.den).2) - q
        = -(((roundMag f q.num.natAbs q.den).1 : ℚ) * 2 ^ (roundMag f q.num.natAbs q.den).2 - -q) := by
      ring
    have e2 : y.toRat - q = -(-y.toRat - -q) := by ring
    rw [e1, e2, abs_neg, abs_neg]
    exact h1
  · push_neg at hq
    have hx : (ofRat f q).toRat
        = ((roundMag f q.num.natAbs q.den).1 : ℚ) * 2 ^ (roundMag f q.num.natAbs q.den).2 := by
      simp [ofRat, toRat, not_lt.mpr hq]
    rw [hx]
    have h1 := s3 y hy.1 hy.2.1
    rwa [abs_of_nonneg hq] at h1

end BinFloat

/-! ## The two constants -/

/-- The value of `1.0e-6f` is `8796093 × 2⁻⁴³`. -/
theorem eps32_eq : __GS_EPSILON_F32__ = ⟨false, 8796093, -43⟩ := by decide!

/-- The value of `1.0e-8` is `6044629098073146 × 2⁻⁷⁹`. -/
theorem eps64_eq : __GS_EPSILON_F64__ = ⟨false, 6044629098073146, -79⟩ := by decide!

/-- The value of `1.0e-6f` as a rational number. -/
theorem eps32_toRat : __GS_EPSILON_F32__.toRat = 8796093 / 2 ^ 43 := by
  rw [eps32_eq]; norm_num [BinFloat.toRat]

/-- The value of `1.0e-8` as a rational number. -/
theorem eps64_toRat : __GS_EPSILON_F64__.toRat = 6044629098073146 / 2 ^ 79 := by
  rw [eps64_eq]; norm_num [BinFloat.toRat]


/-! ## The primary template and its `static_assert` -/

/-- The conversion of `1.0e-6f` to an integer discards everything: the result is `0`. -/
theorem trunc_eps32 : __GS_EPSILON_F32__.trunc = 0 := by decide!

/-- The value `1.0e-6f` is not zero. -/
theorem mant_eps32 : __GS_EPSILON_F32__.mant ≠ 0 := by decide!

/-- Every integral type can represent `0`. -/
theorem zero_mem_intRange (b : Fundamental) : (intRange b).1 ≤ 0 ∧ 0 ≤ (intRange b).2 := by
  cases b with
  | extended signed bits =>
    cases signed
    · simp only [intRange]
      exact ⟨le_rfl, Int.sub_nonneg_of_le (one_le_pow₀ (by norm_num))⟩
    · simp only [intRange]
      have h : (1 : ℤ) ≤ 2 ^ (bits - 1) := one_le_pow₀ (by norm_num)
      constructor <;> linarith
  | _ => simp [intRange]

/-- An integral type is neither `float` nor `double`: the primary template is the one used. -/
theorem Epsilon_of_integral (T : CppType) (h : is_integral T = true) :
    Epsilon T = Epsilon_generic T ∧ Epsilon_generic T = cast T __GS_EPSILON_F32__ := by
  have hf : T ≠ .float := by rintro rfl; exact absurd h (by decide)
  have hd : T ≠ .double := by rintro rfl; exact absurd h (by decide)
  exact ⟨by simp [Epsilon, hf, hd], by simp [Epsilon_generic, h]⟩

/-- The cast `T(1.0e-6f)` to an integral type other than `bool`, qualified or not, is `0`. -/
theorem cast_eps32_of_integral (T : CppType) (h : is_integral T = true) (hb : T.base ≠ .bool) :
    cast T __GS_EPSILON_F32__ = .ok (.int T 0) := by
  have h0 := zero_mem_intRange T.base
  obtain ⟨b, c, v⟩ := T
  cases b <;>
    first
    | exact absurd rfl hb
    | (exfalso; revert h; simp [is_integral]; done)
    | (simp only [cast, trunc_eps32]; rw [if_pos h0])

/-- The cast `T(1.0e-6f)` to `bool`, qualified or not, is `true`. -/
theorem cast_eps32_of_bool (T : CppType) (hb : T.base = .bool) :
    cast T __GS_EPSILON_F32__ = .ok (.int T 1) := by
  obtain ⟨b, c, v⟩ := T
  subst hb
  simp [cast, mant_eps32]

/-- The instantiations that compile: `float`, `double` and the integral types, qualified or
not. -/
theorem accepted_iff (T : CppType) :
    accepted T = true ↔ (T = .float ∨ T = .double ∨ is_integral T = true) := by
  by_cases hf : T = .float
  · subst hf; simp only [true_or, iff_true]; decide!
  by_cases hd : T = .double
  · subst hd; simp only [true_or, or_true, iff_true]; decide!
  cases hi : is_integral T
  · have : Epsilon T
        = .error (.static_assert "'Gs::Epsilon' function only allows floating-point types") := by
      simp [Epsilon, hf, hd, Epsilon_generic, hi]
    simp [accepted, this, hf, hd]
  · have h1 := (Epsilon_of_integral T hi).1.trans (Epsilon_of_integral T hi).2
    by_cases hb : T.base = .bool
    · simp [accepted, h1, cast_eps32_of_bool T hb]
    · simp [accepted, h1, cast_eps32_of_integral T hi hb]

/-- C1, the code at `T = int`: `int` is an integral type and not a floating-point type, yet the
instantiation `Epsilon<int>` passes the `static_assert` and the call returns `int(1.0e-6f) = 0`;
the floating-point type `long double` is the one that is turned away, with a message that says
that only floating-point types are allowed. -/
theorem Epsilon_int_accepted :
    is_integral .int = true ∧ is_floating_point .int = false ∧
    accepted .int = true ∧ Epsilon .int = .ok (.int .int 0) ∧
    Epsilon .longDouble
      = .error (.static_assert "'Gs::Epsilon' function only allows floating-point types") := by
  refine ⟨rfl, rfl, by decide!, by decide!, rfl⟩

/-- C4, the code at `T = int`: the instantiations that compile are not exactly `Epsilon<float>`
and `Epsilon<double>`, because `Epsilon<int>` compiles too. -/
theorem accepted_not_only_float_double :
    ¬ ∀ T : CppType, accepted T = true ↔ (T = .float ∨ T = .double) := by
  intro h
  have h1 : accepted .int = true := by decide!
  have h2 := (h .int).mp h1
  revert h2
  decide

/-- C7: an instantiation that compiles cannot fail: the call returns a value, the value is
tagged with the type `T`, and it is a value of that type (an integer in the range of an integral
`T`, a floating-point number of the format of a floating-point `T`). -/
theorem Epsilon_total_of_accepted (T : CppType) (h : accepted T = true) :
    ∃ v : Value, Epsilon T = .ok v ∧ v.typeOf = T ∧ v.WellTyped = true := by
  rcases (accepted_iff T).mp h with hf | hd | hi
  · subst hf
    exact ⟨.fp .float Epsilon_float, rfl, rfl, by decide!⟩
  · subst hd
    exact ⟨.fp .double Epsilon_double, rfl, rfl, by decide!⟩
  · have h1 := (Epsilon_of_integral T hi).1.trans (Epsilon_of_integral T hi).2
    by_cases hb : T.base = .bool
    · refine ⟨.int T 1, by rw [h1, cast_eps32_of_bool T hb], rfl, ?_⟩
      simp [Value.WellTyped, hi, hb]
    · refine ⟨.int T 0, by rw [h1, cast_eps32_of_integral T hi hb], rfl, ?_⟩
      simp [Value.WellTyped, hi, hb, zero_mem_intRange T.base]

/-- C7, at `T = volatile unsigned int`, an instantiation of the primary template: the call goes
through the cast and returns the integer `0`. -/
theorem Epsilon_total_of_accepted_witness :
    accepted ⟨.unsignedInt, false, true⟩ = true ∧
    Epsilon ⟨.unsignedInt, false, true⟩ = cast ⟨.unsignedInt, false, true⟩ __GS_EPSILON_F32__ ∧
    ∃ v : Value, Epsilon ⟨.unsignedInt, false, true⟩ = .ok v ∧
      v.typeOf = ⟨.unsignedInt, false, true⟩ ∧ v.WellTyped = true :=
  ⟨by decide!, by decide!, Epsilon_total_of_accepted ⟨.unsignedInt, false, true⟩ (by decide!)⟩

/-- C2: `Epsilon<float>()` is the explicit specialisation, not the primary template (which does
not compile for `float`), and it returns the value of the literal `1.0e-6f`: the number of
binary32 nearest to `1.0 × 10⁻⁶`, with bit pattern `0x358637BD`. -/
theorem Epsilon_float_returns_literal :
    Epsilon .float = .ok (.fp .float __GS_EPSILON_F32__) ∧
    __GS_EPSILON_F32__ = BinFloat.ofRat binary32 (1 / 10 ^ 6) ∧
    BinFloat.IsNearest binary32 (1 / 10 ^ 6) __GS_EPSILON_F32__ ∧
    __GS_EPSILON_F32__.bits binary32 = 0x358637BD ∧
    Epsilon_generic .float
      = .error (.static_assert "'Gs::Epsilon' function only allows floating-point types") := by
  have h : __GS_EPSILON_F32__ = BinFloat.ofRat binary32 (1 / 10 ^ 6) := by decide!
  refine ⟨rfl, h, ?_, by decide!, rfl⟩
  rw [h]
  exact BinFloat.ofRat_isNearest binary32 (by decide) _ (by decide!)

/-- C3: `Epsilon<double>()` is the explicit specialisation and returns the value of the literal
`1.0e-8`: the number of binary64 nearest to `1.0 × 10⁻⁸`, with bit pattern
`0x3E45798EE2308C3A`; it is not the single-precision constant `1.0e-6f`. -/
theorem Epsilon_double_returns_literal :
    Epsilon .double = .ok (.fp .double __GS_EPSILON_F64__) ∧
    __GS_EPSILON_F64__ = BinFloat.ofRat binary64 (1 / 10 ^ 8) ∧
    BinFloat.IsNearest binary64 (1 / 10 ^ 8) __GS_EPSILON_F64__ ∧
    __GS_EPSILON_F64__.bits binary64 = 0x3E45798EE2308C3A ∧
    __GS_EPSILON_F64__.toRat ≠ __GS_EPSILON_F32__.toRat ∧
    Epsilon_generic .double
      = .error (.static_assert "'Gs::Epsilon' function only allows floating-point types") := by
  have h : __GS_EPSILON_F64__ = BinFloat.ofRat binary64 (1 / 10 ^ 8) := by decide!
  refine ⟨rfl, h, ?_, by decide!, ?_, rfl⟩
  · rw [h]
    exact BinFloat.ofRat_isNearest binary64 (by decide) _ (by decide!)
  · rw [eps64_toRat, eps32_toRat]; norm_num

/-- C5: the usage scenario of the documentation comment. `IsNearlyZero(0.0000005f)` is `true`
and `IsNearlyZero(0.00001f)` is `false`; the same holds of the decimal values themselves. -/
theorem IsNearlyZero_usage :
    IsNearlyZero (BinFloat.ofRat binary32 (5 / 10 ^ 7)) = true ∧
    IsNearlyZero (BinFloat.ofRat binary32 (1 / 10 ^ 5)) = false ∧
    |(5 : ℚ) / 10 ^ 7| ≤ 1 / 10 ^ 6 ∧ ¬ |(1 : ℚ) / 10 ^ 5| ≤ 1 / 10 ^ 6 := by
  refine ⟨by decide!, by decide!, ?_, ?_⟩
  · rw [abs_of_nonneg (by norm_num)]; norm_num
  · rw [abs_of_nonneg (by norm_num)]; norm_num

/-- C9: both tolerances are positive and the `double` one is strictly smaller; the decimal values
of the two literals are `10⁻⁸` and `10⁻⁶`, with ratio `100`; a value that is nearly zero under the
`double` tolerance is nearly zero under the `float` tolerance. -/
theorem Epsilon_double_lt_float :
    0 < Epsilon_double.toRat ∧ Epsilon_double.toRat < Epsilon_float.toRat ∧
    Epsilon_double = BinFloat.ofRat binary64 (1 / 10 ^ 8) ∧
    Epsilon_float = BinFloat.ofRat binary32 (1 / 10 ^ 6) ∧
    (0 : ℚ) < 1 / 10 ^ 8 ∧ (1 : ℚ) / 10 ^ 8 < 1 / 10 ^ 6 ∧
    ((1 : ℚ) / 10 ^ 6) / (1 / 10 ^ 8) = 100 ∧
    (∀ x : BinFloat, x.abs.toRat ≤ Epsilon_double.toRat → IsNearlyZero x = true) ∧
    (∀ x : ℚ, |x| ≤ Epsilon_double.toRat → |x| ≤ Epsilon_float.toRat) := by
  have h1 : Epsilon_double.toRat = 6044629098073146 / 2 ^ 79 := eps64_toRat
  have h2 : Epsilon_float.toRat = 8796093 / 2 ^ 43 := eps32_toRat
  have h3 : Epsilon_double.toRat < Epsilon_float.toRat := by rw [h1, h2]; norm_num
  refine ⟨by rw [h1]; norm_num, h3, by decide!, by decide!, by norm_num, by norm_num,
    by norm_num, ?_, ?_⟩
  · intro x hx
    simp only [IsNearlyZero, decide_eq_true_eq]
    exact le_trans hx h3.le
  · intro x hx
    exact le_trans hx h3.le

/-- C9, at the value `2⁻³⁰`, which is below both tolerances. -/
theorem Epsilon_double_lt_float_witness :
    (BinFloat.abs ⟨false, 1, -30⟩).toRat ≤ Epsilon_double.toRat ∧
    IsNearlyZero ⟨false, 1, -30⟩ = true :=
  have h : (BinFloat.abs ⟨false, 1, -30⟩).toRat ≤ Epsilon_double.toRat := by
    rw [show Epsilon_double.toRat = 6044629098073146 / 2 ^ 79 from eps64_toRat]
    norm_num [BinFloat.abs, BinFloat.toRat]
  ⟨h, Epsilon_double_lt_float.2.2.2.2.2.2.2.1 ⟨false, 1, -30⟩ h⟩

/-! ## Purity -/

/-- The store model can tell an impure body from a pure one: a body that returns the value of an
object gives different results in different stores. -/
theorem exec_object_depends_on_store :
    exec [.ret (.float (.object "g"))] (fun _ => some ⟨false, 1, 0⟩)
      ≠ exec [.ret (.float (.object "g"))] (fun _ => some ⟨false, 2, 0⟩) := by
  simp [exec, Expr.eval, FloatExpr.eval]

/-- The store model records writes: a body that assigns to an object leaves a store in which
the object has the assigned value. -/
theorem exec_assign_changes_store (s : Store) :
    ∃ v s₁, exec [.ret (.float (.assign "g" (.literal ⟨false, 1, 0⟩)))] s = .ok (v, s₁) ∧
      s₁ "g" = some ⟨false, 1, 0⟩ :=
  ⟨_, _, rfl, by simp [Function.update]⟩

/-- The call `Epsilon<T>()`, run as a program in the store `s`, returns what `Epsilon T` says,
together with the store `s`. -/
theorem Epsilon_call_eq (T : CppType) (s : Store) :
    Epsilon_call T s = (Epsilon T).map (fun v => (v, s)) := by
  unfold Epsilon_call Epsilon_body Epsilon
  split_ifs with h1 h2
  · rfl
  · rfl
  · unfold Epsilon_generic_body Epsilon_generic
    cases hi : is_integral T
    · rfl
    · simp only [exec, Expr.eval, FloatExpr.eval, if_true]
      cases cast T __GS_EPSILON_F32__ <;> rfl

/-- C6: the body run by a call `Epsilon<P>()` reads and writes no object. Run in any store `s`,
it returns the result determined by `P` alone and leaves `s` as the store; the results in two
stores are the same; a second call, made in the store left by the first, returns the same value
again; for `float` the value always has the bit pattern `0x358637BD`, for `double`
`0x3E45798EE2308C3A`. -/
theorem Epsilon_call_pure (P : CppType) (s s' : Store) :
    Epsilon_call P s = (Epsilon P).map (fun v => (v, s)) ∧
    (Epsilon_call P s).map Prod.fst = (Epsilon_call P s').map Prod.fst ∧
    (∀ (v : Value) (s₁ : Store), Epsilon_call P s = .ok (v, s₁) →
      s₁ = s ∧ Epsilon_call P s₁ = .ok (v, s₁)) ∧
    (∃ x : BinFloat, Epsilon_call .float s = .ok (.fp .float x, s) ∧
      Epsilon_call .float s' = .ok (.fp .float x, s') ∧ x.bits binary32 = 0x358637BD) ∧
    (∃ x : BinFloat, Epsilon_call .double s = .ok (.fp .double x, s) ∧
      Epsilon_call .double s' = .ok (.fp .double x, s') ∧
      x.bits binary64 = 0x3E45798EE2308C3A) := by
  refine ⟨Epsilon_call_eq P s, ?_, ?_, ⟨__GS_EPSILON_F32__, rfl, rfl, by decide!⟩,
    ⟨__GS_EPSILON_F64__, rfl, rfl, by decide!⟩⟩
  · rw [Epsilon_call_eq, Epsilon_call_eq]
    cases Epsilon P <;> rfl
  · intro v s₁ h
    rw [Epsilon_call_eq] at h
    cases hE : Epsilon P with
    | error err => rw [hE] at h; cases h
    | ok w =>
      rw [hE] at h
      simp only [Except.map, Except.ok.injEq, Prod.mk.injEq] at h
      obtain ⟨rfl, rfl⟩ := h
      exact ⟨rfl, by rw [Epsilon_call_eq, hE]; rfl⟩

end Gs
